import Mathlib

/-!
Shallow embedding of the cohort-analysis pipeline of `app.py`
(function `process_csv`, lines 20-107), together with proofs about it.

Modelling conventions
* A pandas `Timestamp` is a `Date`: the month index `ym` (`year*12 + month`)
  with the day of month; `dt.to_period('M')` projects to `ym`, and the
  difference of two monthly periods (`.n`) is the difference of the `ym`
  fields.
* A CSV field is a `Cell`.  `pd.to_datetime` succeeds exactly on date-like
  fields and `astype(float)` exactly on numeric fields, so the embedding tags
  each field with the type it parses as and the two partial parsers below are
  the oracle for parse success.
* Money amounts are exact rationals (`Rat`), standing for the float values the
  source manipulates; all the aggregations in scope are sums and divisions on
  small data where the float/real distinction plays no role in the claims.
* pandas `groupby(..., sort=True)` (the default, used everywhere in the
  source) emits one row per distinct key, keys in ascending order; this is
  embedded as `dedup` followed by an insertion sort.
* `pivot_table(index=..., columns=..., values=..., fill_value=0)` produces the
  grid over the sorted distinct row/column keys of its input frame, each cell
  being the mean (default `aggfunc`) of the matching rows, `0` when no row
  matches.  This is `pivot` below.
* Errors raised by pandas (`KeyError` on a missing column label, a date or
  float that fails to parse) are the `Err` values of an `Except`.
-/

set_option maxHeartbeats 1600000

attribute [local semireducible] Rat.add Rat.mul Rat.inv

namespace MarOps

/-- Calendar date: month index `ym` (`year*12 + month`) and day of month. -/
structure Date where
  ym : Int
  day : Int
deriving DecidableEq, Repr

/-- Chronological strict order on dates (used by `purchase_date > first_purchase_date`). -/
def dateLt (a b : Date) : Prop :=
  a.ym < b.ym ∨ (a.ym = b.ym ∧ a.day < b.day)

/-- Chronological order on dates. -/
def dateLe (a b : Date) : Prop :=
  a.ym < b.ym ∨ (a.ym = b.ym ∧ a.day ≤ b.day)

instance : DecidableRel dateLt := fun a b => by unfold dateLt; infer_instance

instance : DecidableRel dateLe := fun a b => by unfold dateLe; infer_instance

/-- Binary chronological minimum. -/
def dateMin (a b : Date) : Date := if dateLe a b then a else b

/-- pandas `Series.min` over a column of timestamps (`none` on an empty column). -/
def minDate : List Date → Option Date
  | [] => none
  | d :: ds => some (ds.foldl dateMin d)

/-- One CSV field, tagged with the most specific type it parses as. -/
inductive Cell
  | str (s : String)
  | date (d : Date)
  | num (q : Rat)
deriving DecidableEq, Repr

/-- pandas `pd.to_datetime` on one field (`none` = the parse raises). -/
def toDatetime : Cell → Option Date
  | .date d => some d
  | _ => none

/-- pandas `astype(float)` on one field (`none` = `ValueError`). -/
def toFloat : Cell → Option Rat
  | .num q => some q
  | _ => none

/-- Tabular input as produced by `pd.read_csv`: a header row and data rows. -/
structure Table where
  headers : List String
  rows : List (List Cell)
deriving DecidableEq, Repr

/-- Failures `process_csv` can raise while normalising the input
(lines 21-44 of `app.py`): a missing column label (`KeyError`), a label
duplicated after the `day` → `purchase_date` rename (selecting it yields a
two-column frame and the operation applied to it — `pd.to_datetime` at line
28, `groupby` at line 31 — raises `ValueError`), an unparseable date, a
non-numeric sale amount. -/
inductive Err
  | keyError (col : String)
  | dupLabel (col : String)
  | badDate
  | badNumber
deriving DecidableEq, Repr

/-- Index of the first column carrying the given label (`none` when the
label is absent). -/
def colIndex (headers : List String) (name : String) : Option Nat :=
  headers.findIdx? (fun h => h = name)

/-- Number of columns carrying the given label. -/
def labelCount (headers : List String) (name : String) : Nat :=
  (headers.filter (fun h => h = name)).length

/-- pandas column access by label as `process_csv` uses it: a missing label
raises `KeyError` when selected; a duplicated label selects a two-column
frame, on which the operation applied next (`pd.to_datetime` at line 28,
`groupby` at line 31) raises `ValueError` — modelled as `Err.dupLabel`.
Duplicate labels are reachable only for `purchase_date`: `pd.read_csv`
mangles duplicate CSV headers (`x`, `x.1`), so the frame's labels start out
distinct and only the `day` → `purchase_date` rename of line 27 can collide
with a pre-existing `purchase_date` column.  For uniformity the model guards
all three lookups; for `customer_email` and `total_sales` the duplicate
branch is unreachable from any `read_csv` frame. -/
def labelLookup (headers : List String) (name : String) : Except Err Nat :=
  match colIndex headers name with
  | none => .error (Err.keyError name)
  | some i =>
    if 2 ≤ labelCount headers name then .error (Err.dupLabel name) else .ok i

/-- Parse the column at index `i` of every row with parser `p`, column-wise;
the first failing field raises `e`.  A field missing from a short row is
modelled as the same failure. -/
def parseColumn {β : Type} (p : Cell → Option β) (e : Err) (i : Nat) :
    List (List Cell) → Except Err (List β)
  | [] => .ok []
  | r :: rs =>
    match r[i]? >>= p with
    | none => .error e
    | some b =>
      match parseColumn p e i rs with
      | .error e2 => .error e2
      | .ok bs => .ok (b :: bs)

/-- Normalised transaction record after ingestion: the `customer_email`
column (raw), the `purchase_date` column parsed to dates, the `total_sales`
column parsed to floats.  The third column is carried by the frame but
unused downstream, so it is not retained here. -/
structure Txn where
  email : Cell
  pdate : Date
  amount : Rat
deriving DecidableEq, Repr

/-- Lines 24 and 27: the header labels of the first four columns
(`df.iloc[:, :4]`), with the label `day` renamed to `purchase_date`. -/
def renameHeaders (t : Table) : List String :=
  (t.headers.take 4).map (fun h => if h = "day" then "purchase_date" else h)

/-- Line 24: the data cells of the first four columns. -/
def truncRows (t : Table) : List (List Cell) :=
  t.rows.map (fun r => r.take 4)

/-- Lines 27-44, on the already-truncated frame: by label, in source order,
parse the `purchase_date` column with `pd.to_datetime` (line 28), read the
`customer_email` column (the groupby key of line 31), and parse the
`total_sales` column with `astype(float)` (line 44). -/
def parseTableCore (headers : List String) (rows : List (List Cell)) :
    Except Err (List Txn) :=
  match labelLookup headers "purchase_date" with
  | .error e => .error e
  | .ok pidx =>
    match parseColumn toDatetime Err.badDate pidx rows with
    | .error e => .error e
    | .ok dates =>
      match labelLookup headers "customer_email" with
      | .error e => .error e
      | .ok eidx =>
        match parseColumn some (Err.keyError "customer_email") eidx rows with
        | .error e => .error e
        | .ok emails =>
          match labelLookup headers "total_sales" with
          | .error e => .error e
          | .ok sidx =>
            match parseColumn toFloat Err.badNumber sidx rows with
            | .error e => .error e
            | .ok amounts =>
              .ok ((emails.zip (dates.zip amounts)).map
                (fun p => { email := p.1, pdate := p.2.1, amount := p.2.2 }))

/-- Lines 21-44 of `app.py`: keep the first four columns positionally,
rename `day` to `purchase_date`, then parse the three columns used
downstream. -/
def parseTable (t : Table) : Except Err (List Txn) :=
  parseTableCore (renameHeaders t) (truncRows t)

/-- A transaction joined with its customer's cohort assignment
(`first_purchase_date`). -/
structure Enriched where
  email : Cell
  pdate : Date
  amount : Rat
  fdate : Date
deriving DecidableEq, Repr

/-- Line 38: `cohort_month = first_purchase_date.dt.to_period('M')`. -/
def cohortMonth (e : Enriched) : Int := e.fdate.ym

/-- Line 41: `purchase_month = purchase_date.dt.to_period('M')`. -/
def purchaseMonth (e : Enriched) : Int := e.pdate.ym

/-- Line 81: `is_repeat_purchase = purchase_date > first_purchase_date`. -/
def isRepeat (e : Enriched) : Bool := decide (dateLt e.fdate e.pdate)

/-- The (cohort month, purchase month) pair a transaction aggregates under. -/
def aggKey (e : Enriched) : Int × Int := (cohortMonth e, purchaseMonth e)

/-- Lines 31-32: `df.groupby('customer_email')['purchase_date'].min()` — one
`(customer_email, first_purchase_date)` pair per distinct customer. -/
def first_purchase (ts : List Txn) : List (Cell × Date) :=
  ((ts.map (fun t => t.email)).dedup).filterMap
    (fun e => (minDate ((ts.filter (fun t => decide (t.email = e))).map
      (fun t => t.pdate))).map (fun d => (e, d)))

/-- Line 35: `pd.merge(df, first_purchase, on='customer_email')` — the inner
join pairing every transaction with every assignment sharing its key. -/
def mergeFirstPurchase (ts : List Txn) (fp : List (Cell × Date)) : List Enriched :=
  ts.flatMap (fun t => (fp.filter (fun p => decide (p.1 = t.email))).map
    (fun p => { email := t.email, pdate := t.pdate, amount := t.amount, fdate := p.2 }))

/-- Lines 31-41: derive the per-customer assignments and join them back. -/
def enrich (ts : List Txn) : List Enriched := mergeFirstPurchase ts (first_purchase ts)

/-- Lexicographic order on (cohort month, purchase month) keys: the order
pandas `groupby(['cohort_month', 'purchase_month'])` emits group keys in. -/
def pairLe (a b : Int × Int) : Prop := a.1 < b.1 ∨ (a.1 = b.1 ∧ a.2 ≤ b.2)

instance : DecidableRel pairLe := fun a b => by unfold pairLe; infer_instance

instance : IsTotal (Int × Int) pairLe := ⟨by intro a b; unfold pairLe; omega⟩

instance : IsTrans (Int × Int) pairLe := ⟨by intro a b c; unfold pairLe; omega⟩

/-- The distinct (cohort month, purchase month) keys of the data, ascending:
the index of the frame built at line 47. -/
def sortedKeys (es : List Enriched) : List (Int × Int) :=
  List.insertionSort pairLe ((es.map aggKey).dedup)

/-- Line 47: the `total_sales` aggregate of one (cohort month, purchase month)
group. -/
def total_sales (es : List Enriched) (cm pm : Int) : Rat :=
  ((es.filter (fun e => decide (cohortMonth e = cm ∧ purchaseMonth e = pm))).map
    (fun e => e.amount)).sum

/-- The group total, keyed by the pair. -/
def keyTotal (es : List Enriched) (k : Int × Int) : Rat := total_sales es k.1 k.2

/-- Line 53: distinct customers whose cohort month is `cm`. -/
def cohortSize (es : List Enriched) (cm : Int) : Nat :=
  ((es.filter (fun e => decide (cohortMonth e = cm))).map (fun e => e.email)).dedup.length

/-- Line 50: `groupby('cohort_month')['total_sales'].cumsum()` — rows are
processed in frame order, `pre` is the list of keys of rows already emitted,
and each row's cumulative value is the sum of the group totals of the rows of
its own cohort emitted so far, itself included. -/
def cumsumGo (T : Int × Int → Rat) (pre : List (Int × Int)) :
    List (Int × Int) → List ((Int × Int) × Rat)
  | [] => []
  | k :: ks =>
    (k, (((pre ++ [k]).filter (fun p => decide (p.1 = k.1))).map T).sum) ::
      cumsumGo T (pre ++ [k]) ks

/-- One row of the `cohort_monthly_spend` frame after lines 47-63. -/
structure AggRow where
  cm : Int
  pm : Int
  total : Rat
  cumulative : Rat
  size : Nat
  avgCum : Rat
  offset : Int
deriving DecidableEq, Repr

/-- Assemble one `cohort_monthly_spend` row from its key and cumulative value:
lines 57 (merge of `cohort_sizes`, a size lookup by cohort month), 60
(`avg_cumulative_total_spent`), 63 (`months_since_initial_purchase`, the
period difference `purchase_month - cohort_month`). -/
def mkAggRow (es : List Enriched) (kc : (Int × Int) × Rat) : AggRow :=
  { cm := kc.1.1, pm := kc.1.2, total := keyTotal es kc.1, cumulative := kc.2,
    size := cohortSize es kc.1.1,
    avgCum := kc.2 / (cohortSize es kc.1.1 : Rat),
    offset := kc.1.2 - kc.1.1 }

/-- Lines 47-63: the `cohort_monthly_spend` frame — one row per distinct
(cohort month, purchase month) key, keys ascending, with group total,
in-cohort running cumulative total, cohort size, average cumulative total and
month offset. -/
def cohort_monthly_spend (es : List Enriched) : List AggRow :=
  (cumsumGo (keyTotal es) [] (sortedKeys es)).map (mkAggRow es)

/-- One row of the `repeat_purchasers` frame after lines 84-94. -/
structure RepRow where
  cm : Int
  pm : Int
  count : Nat
  size : Nat
  rate : Rat
  offset : Int
deriving DecidableEq, Repr

/-- Line 84: the distinct (cohort month, purchase month) keys among the
repeat-purchase transactions only (`df[df['is_repeat_purchase']]`). -/
def repeatKeys (es : List Enriched) : List (Int × Int) :=
  List.insertionSort pairLe (((es.filter isRepeat).map aggKey).dedup)

/-- Line 84: distinct customers with a repeat purchase in the given group. -/
def repeatCount (es : List Enriched) (k : Int × Int) : Nat :=
  (((es.filter isRepeat).filter (fun e => decide (aggKey e = k))).map
    (fun e => e.email)).dedup.length

/-- Lines 84-94: one `repeat_purchasers` row — repeat-purchaser count, cohort
size (merged at line 88), rate (line 91) and month offset (line 94). -/
def mkRepRow (es : List Enriched) (k : Int × Int) : RepRow :=
  { cm := k.1, pm := k.2, count := repeatCount es k, size := cohortSize es k.1,
    rate := (repeatCount es k : Rat) / (cohortSize es k.1 : Rat),
    offset := k.2 - k.1 }

/-- Lines 84-94: the `repeat_purchasers` frame. -/
def repeat_purchasers (es : List Enriched) : List RepRow :=
  (repeatKeys es).map (mkRepRow es)

/-- A pivoted output matrix: sorted distinct row keys (cohort months), sorted
distinct column keys (month offsets), and the dense grid of cells. -/
structure PivotTable where
  rowKeys : List Int
  colKeys : List Int
  cells : List (List Rat)
deriving DecidableEq, Repr

/-- The frame rows matching one (row key, column key) pair of a pivot. -/
def pivotMatches {α : Type} (rows : List α) (cmOf offOf : α → Int)
    (cm off : Int) : List α :=
  rows.filter (fun r => decide (cmOf r = cm ∧ offOf r = off))

/-- One cell of `pivot_table(..., fill_value=0)`: the mean (default
`aggfunc`) of the values of the rows matching the (row key, column key) pair,
`0` when no row matches. -/
def pivotCell {α : Type} (rows : List α) (cmOf offOf : α → Int) (val : α → Rat)
    (cm off : Int) : Rat :=
  if (pivotMatches rows cmOf offOf cm off).length = 0 then 0
  else ((pivotMatches rows cmOf offOf cm off).map val).sum /
    ((pivotMatches rows cmOf offOf cm off).length : Rat)

/-- The row axis of a pivot: the sorted distinct row keys of the frame. -/
def pivotRowKeys {α : Type} (rows : List α) (cmOf : α → Int) : List Int :=
  List.insertionSort (fun a b : Int => a ≤ b) ((rows.map cmOf).dedup)

/-- `pivot_table(index=cmOf, columns=offOf, values=val, fill_value=0)`:
the grid over the sorted distinct row and column keys of the input frame. -/
def pivot {α : Type} (rows : List α) (cmOf offOf : α → Int) (val : α → Rat) :
    PivotTable :=
  { rowKeys := pivotRowKeys rows cmOf
  , colKeys := pivotRowKeys rows offOf
  , cells := (pivotRowKeys rows cmOf).map (fun cm =>
      (pivotRowKeys rows offOf).map (fun off => pivotCell rows cmOf offOf val cm off)) }

/-- Lines 53-54: the `cohort_sizes` frame — one (cohort month, size) row per
distinct cohort month, ascending. -/
def cohort_sizes (es : List Enriched) : List (Int × Nat) :=
  (List.insertionSort (fun a b : Int => a ≤ b) ((es.map cohortMonth).dedup)).map
    (fun cm => (cm, cohortSize es cm))

/-- Line 66: the average-LTV pivot (`values='avg_cumulative_total_spent'`). -/
def ltv_matrix (es : List Enriched) : PivotTable :=
  pivot (cohort_monthly_spend es) (fun r => r.cm) (fun r => r.offset) (fun r => r.avgCum)

/-- Line 73: the monthly-revenue pivot (`values='total_sales'`). -/
def revenue_matrix (es : List Enriched) : PivotTable :=
  pivot (cohort_monthly_spend es) (fun r => r.cm) (fun r => r.offset) (fun r => r.total)

/-- Line 97: the repeat-purchase-rate pivot, built from the
`repeat_purchasers` frame (`values='repeat_purchase_rate'`). -/
def repeat_rate_matrix (es : List Enriched) : PivotTable :=
  pivot (repeat_purchasers es) (fun r => r.cm) (fun r => r.offset) (fun r => r.rate)

/-- The four output artifacts of `process_csv`. -/
structure Outputs where
  ltv : PivotTable
  revenue : PivotTable
  rpr : PivotTable
  sizes : List (Int × Nat)
deriving DecidableEq, Repr

/-- Lines 47-105: the pure computation from normalised transactions to the
four output tables (`ltv.csv`, `revenue_monthly.csv`,
`repeat_purchase_rate.csv`, `cohort_sizes.csv`). -/
def computeOutputs (ts : List Txn) : Outputs :=
  let es := enrich ts
  { ltv := ltv_matrix es
  , revenue := revenue_matrix es
  , rpr := repeat_rate_matrix es
  , sizes := cohort_sizes es }

/-- `process_csv` (lines 20-107): normalise the input, then compute the four
outputs.  Every fallible operation of the source (lines 21-44) happens before
the first file write (line 70), so a failure yields no outputs at all. -/
def process_csv (t : Table) : Except Err Outputs :=
  match parseTable t with
  | .error e => .error e
  | .ok ts => .ok (computeOutputs ts)

/-- The artifact names returned at line 107, in write order
(lines 70, 77, 101, 105). -/
def outputFileNames : List String :=
  ["ltv.csv", "revenue_monthly.csv", "repeat_purchase_rate.csv", "cohort_sizes.csv"]

/-- The files `process_csv` has written when it returns or raises: the four
`to_csv` calls (lines 70, 77, 101, 105) all come after the last fallible
operation (line 44), and the computation between consecutive writes is pure,
so an invocation writes either nothing or all four files. -/
def writtenFiles (t : Table) : List String :=
  match parseTable t with
  | .error _ => []
  | .ok _ => outputFileNames

/-- The positional restriction of a table to its first four columns
(`df.iloc[:, :4]`, line 24). -/
def firstFourColumns (t : Table) : Table :=
  { headers := t.headers.take 4, rows := t.rows.map (fun r => r.take 4) }

/-- Total sale amount of all transactions of the customers of cohort `cm`. -/
def cohortTotalAmount (es : List Enriched) (cm : Int) : Rat :=
  ((es.filter (fun e => decide (cohortMonth e = cm))).map (fun e => e.amount)).sum

/-- The purchase months in which cohort `cm` has at least one transaction. -/
def monthsOf (es : List Enriched) (cm : Int) : List Int :=
  ((sortedKeys es).filter (fun k => decide (k.1 = cm))).map (fun k => k.2)

/-- The output of the pipeline on an input with no transaction rows. -/
def emptyOutputs : Outputs :=
  { ltv := { rowKeys := [], colKeys := [], cells := [] }
  , revenue := { rowKeys := [], colKeys := [], cells := [] }
  , rpr := { rowKeys := [], colKeys := [], cells := [] }
  , sizes := [] }

/-- The scenario input of spec section 8: customer A buys 10 in January and
20 in February, customer B buys 5 in February (first purchase), customer C
buys 15 in January.  Months are indexed January = 0, February = 1. -/
def scenarioTable : Table :=
  { headers := ["customer_email", "day", "item", "total_sales"]
  , rows :=
      [ [Cell.str "A", Cell.date ⟨0, 5⟩, Cell.str "x", Cell.num 10]
      , [Cell.str "A", Cell.date ⟨1, 3⟩, Cell.str "x", Cell.num 20]
      , [Cell.str "B", Cell.date ⟨1, 10⟩, Cell.str "x", Cell.num 5]
      , [Cell.str "C", Cell.date ⟨0, 7⟩, Cell.str "x", Cell.num 15] ] }

/-- The normalised records of the scenario input. -/
def scenarioTxns : List Txn :=
  [ { email := Cell.str "A", pdate := ⟨0, 5⟩, amount := 10 }
  , { email := Cell.str "A", pdate := ⟨1, 3⟩, amount := 20 }
  , { email := Cell.str "B", pdate := ⟨1, 10⟩, amount := 5 }
  , { email := Cell.str "C", pdate := ⟨0, 7⟩, amount := 15 } ]

/-- The enriched records of the scenario input. -/
def scenarioEnriched : List Enriched := enrich scenarioTxns

/-- The four output tables the pipeline produces on the scenario input. -/
def scenarioOutputs : Outputs :=
  { ltv := { rowKeys := [0, 1], colKeys := [0, 1], cells := [[25/2, 45/2], [5, 0]] }
  , revenue := { rowKeys := [0, 1], colKeys := [0, 1], cells := [[25, 20], [5, 0]] }
  , rpr := { rowKeys := [0], colKeys := [1], cells := [[1/2]] }
  , sizes := [(0, 2), (1, 1)] }

/-- The scenario input with the same cells but different header names in the
first four columns. -/
def renamedTable : Table :=
  { headers := ["customer", "date", "item", "amount"]
  , rows := scenarioTable.rows }

/-- A table with a header row and zero transaction rows. -/
def emptyTable : Table :=
  { headers := ["customer_email", "day", "item", "total_sales"], rows := [] }

/-- A header-only table whose first four labels contain both `day` and
`purchase_date`: after the rename of line 27 the label `purchase_date` is
duplicated, and `pd.to_datetime(df['purchase_date'])` at line 28 raises a
`ValueError` on the two-column selection. -/
def dupTable : Table :=
  { headers := ["customer_email", "day", "purchase_date", "total_sales"]
  , rows := [] }

/-- Success test for a pipeline result. -/
def isOk {ε α : Type} : Except ε α → Bool
  | .ok _ => true
  | .error _ => false

instance {ε α : Type} [DecidableEq ε] [DecidableEq α] :
    DecidableEq (Except ε α) := fun x y =>
  match x, y with
  | .ok a, .ok b =>
    if h : a = b then isTrue (congrArg Except.ok h)
    else isFalse (fun hc => h (Except.ok.inj hc))
  | .error a, .error b =>
    if h : a = b then isTrue (congrArg Except.error h)
    else isFalse (fun hc => h (Except.error.inj hc))
  | .ok _, .error _ => isFalse (fun hc => Except.noConfusion hc)
  | .error _, .ok _ => isFalse (fun hc => Except.noConfusion hc)

/-!  Lemmas and claim theorems. -/

/-- Truncating to the first four columns is idempotent on headers. -/
theorem renameHeaders_firstFourColumns (t : Table) :
    renameHeaders (firstFourColumns t) = renameHeaders t := by
  unfold renameHeaders firstFourColumns
  simp [List.take_take]

/-- Truncating to the first four columns is idempotent on rows. -/
theorem truncRows_firstFourColumns (t : Table) :
    truncRows (firstFourColumns t) = truncRows t := by
  unfold truncRows firstFourColumns
  simp [List.map_map, Function.comp, List.take_take]

/-- Every label lookup ends in a found index, a `KeyError` or a
duplicate-label failure. -/
theorem labelLookup_cases (headers : List String) (name : String) :
    (∃ i, labelLookup headers name = .ok i) ∨
    labelLookup headers name = .error (Err.keyError name) ∨
    labelLookup headers name = .error (Err.dupLabel name) := by
  unfold labelLookup
  cases colIndex headers name with
  | none => exact Or.inr (Or.inl rfl)
  | some i =>
    dsimp only
    by_cases h2 : 2 ≤ labelCount headers name
    · rw [if_pos h2]
      exact Or.inr (Or.inr rfl)
    · rw [if_neg h2]
      exact Or.inl ⟨i, rfl⟩

/-- A frame without a `customer_email` label fails during normalisation. -/
theorem parseTableCore_email_none (headers : List String)
    (rows : List (List Cell)) (h : colIndex headers "customer_email" = none) :
    ∃ e, parseTableCore headers rows = .error e := by
  have hemail : labelLookup headers "customer_email"
      = .error (Err.keyError "customer_email") := by
    unfold labelLookup
    rw [h]
  unfold parseTableCore
  cases hp : labelLookup headers "purchase_date" with
  | error e => exact ⟨e, rfl⟩
  | ok pidx =>
    dsimp only
    cases hd : parseColumn toDatetime Err.badDate pidx rows with
    | error e => exact ⟨e, rfl⟩
    | ok dates =>
      dsimp only
      rw [hemail]
      exact ⟨Err.keyError "customer_email", rfl⟩

/-- C1, counterexample: two inputs identical except for the header names of
their first four columns; the pipeline accepts one and raises a `KeyError`
on the other, so header names do matter. -/
theorem c1_counterexample :
    scenarioTable.rows = renamedTable.rows ∧
    isOk (process_csv scenarioTable) = true ∧
    process_csv renamedTable = Except.error (Err.keyError "purchase_date") := by
  decide

/-- C1, amended: ingestion truncates to the first four columns positionally
(the result only depends on them), but within those four columns the
customer identifier, purchase date and sale amount are selected by header
name (`customer_email`, `day`/`purchase_date`, `total_sales`), not by
position; in particular an input whose first four headers do not carry the
label `customer_email` (after the `day` rename) makes the pipeline fail
rather than produce the same records. -/
theorem c1_theorem :
    (∀ t : Table, parseTable t = parseTable (firstFourColumns t)) ∧
    (∀ t : Table, colIndex (renameHeaders t) "customer_email" = none →
      ∃ e, process_csv t = Except.error e) := by
  constructor
  · intro t
    unfold parseTable
    rw [renameHeaders_firstFourColumns, truncRows_firstFourColumns]
  · intro t h
    obtain ⟨e, he⟩ := parseTableCore_email_none (renameHeaders t) (truncRows t) h
    refine ⟨e, ?_⟩
    unfold process_csv parseTable
    rw [he]

/-- C1, witness: the amended theorem applied to the renamed scenario input. -/
theorem c1_witness : ∃ e, process_csv renamedTable = Except.error e :=
  c1_theorem.2 renamedTable (by decide)

/-- C2, counterexample: on the scenario input the February cohort (month 1)
does not appear in the repeat-purchase-rate output at all — its only row key
is January (month 0) and its only column key is offset 1 — contradicting the
claim that the February cohort appears there with rate 0 at offset 0. -/
theorem c2_counterexample :
    process_csv scenarioTable = Except.ok scenarioOutputs ∧
    scenarioOutputs.rpr.rowKeys = [0] ∧
    (1 : Int) ∉ scenarioOutputs.rpr.rowKeys ∧
    (0 : Int) ∉ scenarioOutputs.rpr.colKeys := by
  decide

/-- C2, amended: on the scenario input the pipeline produces exactly the
outputs of the spec scenario — January cohort of size 2 and February cohort
of size 1; January revenue 25 at offset 0 and 20 at offset 1; January
cumulative total 45 and average cumulative 45/2 at offset 1; January repeat
rate 1/2 at offset 1 — except that the February cohort is absent from the
repeat-rate matrix (instead of appearing with rate 0 at offset 0). -/
theorem c2_theorem :
    parseTable scenarioTable = Except.ok scenarioTxns ∧
    process_csv scenarioTable = Except.ok scenarioOutputs ∧
    (⟨0, 1, 20, 45, 2, 45/2, 1⟩ : AggRow) ∈ cohort_monthly_spend scenarioEnriched ∧
    scenarioOutputs.revenue.cells = [[25, 20], [5, 0]] ∧
    scenarioOutputs.ltv.cells = [[25/2, 45/2], [5, 0]] ∧
    scenarioOutputs.sizes = [(0, 2), (1, 1)] ∧
    scenarioOutputs.rpr = { rowKeys := [0], colKeys := [1], cells := [[1/2]] } := by
  decide

/-- C3, counterexample: on the scenario input the repeat-rate matrix does not
have the same shape as the revenue matrix — the February cohort (month 1) has
a revenue row but no repeat-rate row, and offset 0 has a revenue column but
no repeat-rate column. -/
theorem c3_counterexample :
    process_csv scenarioTable = Except.ok scenarioOutputs ∧
    scenarioOutputs.rpr.rowKeys ≠ scenarioOutputs.revenue.rowKeys ∧
    scenarioOutputs.rpr.colKeys ≠ scenarioOutputs.revenue.colKeys ∧
    (1 : Int) ∈ scenarioOutputs.revenue.rowKeys ∧
    (1 : Int) ∉ scenarioOutputs.rpr.rowKeys := by
  decide

/-- C4, counterexample: on a header-only input with the canonical labels the
pipeline does not raise — it returns successfully, produces four empty
output tables and writes all four artifacts (there is no `EmptyInputError`
anywhere in the code); and on a header-only input carrying both `day` and
`purchase_date` it fails with the duplicate-label `ValueError` of line 28,
not an `EmptyInputError`. -/
theorem c4_counterexample :
    process_csv emptyTable = Except.ok emptyOutputs ∧
    writtenFiles emptyTable = outputFileNames ∧
    outputFileNames ≠ [] ∧
    process_csv dupTable = Except.error (Err.dupLabel "purchase_date") ∧
    writtenFiles dupTable = [] := by
  decide

/-- C4, amended: a header-only input (zero transaction rows) never raises an
empty-input error — no `EmptyInputError` exists in the code.  Either the
schema is rejected before any write (a required label is missing, giving a
`KeyError`, or a label is duplicated after the `day` → `purchase_date`
rename, making the operation on the two-column selection raise `ValueError`)
and no artifact is written, or the pipeline completes with four empty output
tables and writes all four artifacts. -/
theorem c4_theorem (t : Table) (h : t.rows = []) :
    (process_csv t = Except.ok emptyOutputs ∧ writtenFiles t = outputFileNames) ∨
    (∃ c, process_csv t = Except.error (Err.keyError c) ∧ writtenFiles t = []) ∨
    (∃ c, process_csv t = Except.error (Err.dupLabel c) ∧ writtenFiles t = []) := by
  have hrows : truncRows t = [] := by
    unfold truncRows
    rw [h]
    rfl
  unfold process_csv writtenFiles parseTable
  rw [hrows]
  unfold parseTableCore
  rcases labelLookup_cases (renameHeaders t) "purchase_date" with ⟨pidx, hp⟩ | hp | hp
  · rw [hp]
    dsimp only [parseColumn]
    rcases labelLookup_cases (renameHeaders t) "customer_email" with ⟨eidx, he⟩ | he | he
    · rw [he]
      dsimp only [parseColumn]
      rcases labelLookup_cases (renameHeaders t) "total_sales" with ⟨sidx, hs⟩ | hs | hs
      · rw [hs]
        dsimp only [parseColumn]
        exact Or.inl ⟨rfl, rfl⟩
      · rw [hs]
        exact Or.inr (Or.inl ⟨"total_sales", rfl, rfl⟩)
      · rw [hs]
        exact Or.inr (Or.inr ⟨"total_sales", rfl, rfl⟩)
    · rw [he]
      exact Or.inr (Or.inl ⟨"customer_email", rfl, rfl⟩)
    · rw [he]
      exact Or.inr (Or.inr ⟨"customer_email", rfl, rfl⟩)
  · rw [hp]
    exact Or.inr (Or.inl ⟨"purchase_date", rfl, rfl⟩)
  · rw [hp]
    exact Or.inr (Or.inr ⟨"purchase_date", rfl, rfl⟩)

/-- C4, witness: the amended theorem applied to the concrete empty input. -/
theorem c4_witness :
    (process_csv emptyTable = Except.ok emptyOutputs ∧
      writtenFiles emptyTable = outputFileNames) ∨
    (∃ c, process_csv emptyTable = Except.error (Err.keyError c) ∧
      writtenFiles emptyTable = []) ∨
    (∃ c, process_csv emptyTable = Except.error (Err.dupLabel c) ∧
      writtenFiles emptyTable = []) :=
  c4_theorem emptyTable rfl

/-- C5: the pipeline writes either no output artifact (when normalisation
fails) or all four of them (when it succeeds); it never leaves a proper
subset written, because every fallible operation of the source precedes the
first `to_csv` call and the computation between the four writes is pure. -/
theorem c5_theorem (t : Table) :
    (isOk (process_csv t) = true ∧ writtenFiles t = outputFileNames) ∨
    (isOk (process_csv t) = false ∧ writtenFiles t = []) := by
  unfold process_csv writtenFiles
  cases parseTable t with
  | error e => exact Or.inr ⟨rfl, rfl⟩
  | ok ts => exact Or.inl ⟨rfl, rfl⟩

/-- A `filterMap` whose function succeeds on every element and whose results
project back to the element is, after projection, the identity. -/
theorem filterMap_map_fst_of_total {α β : Type} (g : β → α) (f : α → Option β) :
    ∀ l : List α, (∀ e ∈ l, ∃ b, f e = some b ∧ g b = e) →
      (l.filterMap f).map g = l := by
  intro l
  induction l with
  | nil => intro _; rfl
  | cons a l ih =>
    intro h
    obtain ⟨b, hb, hgb⟩ := h a (List.mem_cons_self a l)
    rw [List.filterMap_cons, hb, List.map_cons, hgb,
      ih (fun e he => h e (List.mem_cons_of_mem a he))]

/-- The customer column of the `first_purchase` frame is exactly the list of
distinct customers of the input, in first-seen-deduplicated order: the
groupby of line 31 produces one row per distinct `customer_email`. -/
theorem first_purchase_map_fst (ts : List Txn) :
    (first_purchase ts).map Prod.fst = (ts.map (fun t => t.email)).dedup := by
  unfold first_purchase
  apply filterMap_map_fst_of_total
  intro e he
  rw [List.mem_dedup] at he
  obtain ⟨t, ht, hte⟩ := List.mem_map.mp he
  cases hfl : ts.filter (fun t2 => decide (t2.email = e)) with
  | nil =>
    exfalso
    have hmem : t ∈ ts.filter (fun t2 => decide (t2.email = e)) := by
      rw [List.mem_filter]
      exact ⟨ht, by simp [hte]⟩
    rw [hfl] at hmem
    cases hmem
  | cons x xs =>
    refine ⟨(e, (List.map (fun t : Txn => t.pdate) xs).foldl dateMin x.pdate), ?_, rfl⟩
    rfl

/-- In a list of key-value pairs with pairwise-distinct keys, filtering by a
key that occurs yields exactly one pair. -/
theorem key_filter_length_one {γ δ : Type} [DecidableEq γ] :
    ∀ (l : List (γ × δ)) (a : γ), (l.map Prod.fst).Nodup → a ∈ l.map Prod.fst →
      (l.filter (fun p => decide (p.1 = a))).length = 1 := by
  intro l
  induction l with
  | nil => intro a _ ha; cases ha
  | cons p ps ih =>
    intro a hnd ha
    rw [List.map_cons, List.nodup_cons] at hnd
    rw [List.map_cons, List.mem_cons] at ha
    rcases ha with ha | ha
    · have hnil : ps.filter (fun q => decide (q.1 = a)) = [] := by
        rw [List.filter_eq_nil_iff]
        intro q hq hqa
        apply hnd.1
        rw [← ha]
        have hq1 : q.1 = a := by simpa using hqa
        rw [← hq1]
        exact List.mem_map.mpr ⟨q, hq, rfl⟩
      rw [List.filter_cons_of_pos (by simp [ha]), hnil]
      rfl
    · have hne : p.1 ≠ a := by
        intro hcon
        exact hnd.1 (hcon ▸ ha)
      rw [List.filter_cons_of_neg (by simp [hne])]
      exact ih a hnd.2 ha

/-- A `flatMap` whose blocks all have one element preserves length. -/
theorem length_flatMap_of_one {α β : Type} (f : α → List β) :
    ∀ l : List α, (∀ a ∈ l, (f a).length = 1) → (l.flatMap f).length = l.length := by
  intro l
  induction l with
  | nil => intro _; rfl
  | cons a l ih =>
    intro h
    rw [List.flatMap_cons, List.length_append, ih (fun e he => h e (List.mem_cons_of_mem a he)),
      h a (List.mem_cons_self a l), List.length_cons]
    omega

/-- C8: the join of transactions against the per-customer first-purchase
assignments (line 35) resolves every transaction to exactly one assignment —
the `first_purchase` frame holds exactly one row for each transaction's
customer — so the enriched record set has exactly as many records as the
input and no transaction is dropped or duplicated. -/
theorem c8_theorem (ts : List Txn) :
    (enrich ts).length = ts.length ∧
    ∀ t ∈ ts, ((first_purchase ts).filter (fun p => decide (p.1 = t.email))).length = 1 := by
  have hkey : ∀ t ∈ ts,
      ((first_purchase ts).filter (fun p => decide (p.1 = t.email))).length = 1 := by
    intro t ht
    apply key_filter_length_one
    · rw [first_purchase_map_fst]
      exact (ts.map (fun t2 => t2.email)).nodup_dedup
    · rw [first_purchase_map_fst, List.mem_dedup]
      exact List.mem_map.mpr ⟨t, ht, rfl⟩
  refine ⟨?_, hkey⟩
  unfold enrich mergeFirstPurchase
  apply length_flatMap_of_one
  intro t ht
  rw [List.length_map]
  exact hkey t ht

/-- C8, witness: the join preserves cardinality on the scenario input, and
customer A's transactions match exactly one assignment row. -/
theorem c8_witness :
    (enrich scenarioTxns).length = scenarioTxns.length ∧
    ((first_purchase scenarioTxns).filter
      (fun p => decide (p.1 = Cell.str "A"))).length = 1 :=
  ⟨(c8_theorem scenarioTxns).1,
    (c8_theorem scenarioTxns).2
      { email := Cell.str "A", pdate := ⟨0, 5⟩, amount := 10 } (by decide)⟩

/-- The key list of the `cohort_monthly_spend` frame has no duplicates. -/
theorem sortedKeys_nodup (es : List Enriched) : (sortedKeys es).Nodup := by
  unfold sortedKeys
  exact ((List.perm_insertionSort pairLe _).nodup_iff).mpr (List.nodup_dedup _)

/-- The key list of the `cohort_monthly_spend` frame is sorted. -/
theorem sortedKeys_sorted (es : List Enriched) :
    List.Sorted pairLe (sortedKeys es) := by
  unfold sortedKeys
  exact List.sorted_insertionSort pairLe _

/-- A key occurs in the `cohort_monthly_spend` frame exactly when some
transaction aggregates under it. -/
theorem mem_sortedKeys (es : List Enriched) (k : Int × Int) :
    k ∈ sortedKeys es ↔ ∃ e ∈ es, aggKey e = k := by
  unfold sortedKeys
  rw [List.mem_insertionSort, List.mem_dedup, List.mem_map]

/-- The keys of the grouped cumulative sum are the keys it was fed. -/
theorem cumsumGo_map_fst (T : Int × Int → Rat) :
    ∀ pre ks : List (Int × Int), (cumsumGo T pre ks).map Prod.fst = ks := by
  intro pre ks
  induction ks generalizing pre with
  | nil => rfl
  | cons k ks ih => rw [cumsumGo, List.map_cons, ih]

/-- Every entry of the grouped cumulative sum is the entry of some key `k` of
the input, and its value is the sum of the totals of the keys of `k`'s cohort
among the keys processed up to and including `k`. -/
theorem cumsumGo_mem (T : Int × Int → Rat) :
    ∀ (pre ks : List (Int × Int)) (x : (Int × Int) × Rat), x ∈ cumsumGo T pre ks →
      ∃ l k r2, ks = l ++ k :: r2 ∧
        x = (k, (((pre ++ l ++ [k]).filter (fun p => decide (p.1 = k.1))).map T).sum) := by
  intro pre ks
  induction ks generalizing pre with
  | nil => intro x hx; cases hx
  | cons k ks ih =>
    intro x hx
    rw [cumsumGo] at hx
    rcases List.mem_cons.mp hx with hx | hx
    · refine ⟨[], k, ks, rfl, ?_⟩
      rw [hx]
      simp
    · obtain ⟨l, k2, r2, hks, hxe⟩ := ih (pre ++ [k]) x hx
      refine ⟨k :: l, k2, r2, by rw [hks, List.cons_append], ?_⟩
      rw [hxe]
      simp [List.append_assoc]

/-- Closed form of the in-cohort running cumulative sum over a sorted,
duplicate-free key list: the entry at key `k` is the sum of the totals of the
keys of `k`'s cohort whose purchase month is at most `k`'s. -/
theorem cumsum_closed (keys : List (Int × Int)) (hs : List.Sorted pairLe keys)
    (hn : keys.Nodup) (T : Int × Int → Rat) (x : (Int × Int) × Rat)
    (hx : x ∈ cumsumGo T [] keys) :
    x.2 = ((keys.filter (fun p => decide (p.1 = x.1.1 ∧ p.2 ≤ x.1.2))).map T).sum := by
  obtain ⟨l, k, r2, hks, hxe⟩ := cumsumGo_mem T [] keys x hx
  subst hks
  rw [hxe]
  dsimp only
  have hlk : ∀ p ∈ l, pairLe p k := by
    intro p hp
    have hpa := (List.pairwise_append.mp hs).2.2
    exact hpa p hp k (List.mem_cons_self k r2)
  have hkr : ∀ p ∈ r2, pairLe k p := by
    intro p hp
    have hpc := List.pairwise_cons.mp (List.pairwise_append.mp hs).2.1
    exact hpc.1 p hp
  have hknr : k ∉ r2 := by
    intro hcon
    have hnc := (List.nodup_append.mp hn).2.1
    exact (List.nodup_cons.mp hnc).1 hcon
  have hfilter :
      (l ++ [k]).filter (fun p => decide (p.1 = k.1)) =
        (l ++ k :: r2).filter (fun p => decide (p.1 = k.1 ∧ p.2 ≤ k.2)) := by
    rw [List.filter_append, List.filter_append]
    have h1 : l.filter (fun p => decide (p.1 = k.1)) =
        l.filter (fun p => decide (p.1 = k.1 ∧ p.2 ≤ k.2)) := by
      apply List.filter_congr
      intro p hp
      have hple := hlk p hp
      unfold pairLe at hple
      rw [decide_eq_decide]
      omega
    have h2 : ([k] : List (Int × Int)).filter (fun p => decide (p.1 = k.1)) = [k] := by
      simp
    have h3 : (k :: r2).filter (fun p => decide (p.1 = k.1 ∧ p.2 ≤ k.2)) =
        k :: r2.filter (fun p => decide (p.1 = k.1 ∧ p.2 ≤ k.2)) := by
      apply List.filter_cons_of_pos
      simp
    have h4 : r2.filter (fun p => decide (p.1 = k.1 ∧ p.2 ≤ k.2)) = [] := by
      rw [List.filter_eq_nil_iff]
      intro p hp hcon
      have hple := hkr p hp
      unfold pairLe at hple
      rw [decide_eq_true_iff] at hcon
      have hpk : p = k := by
        have h5 : p.1 = k.1 := hcon.1
        have h6 : p.2 = k.2 := by omega
        exact Prod.ext h5 h6
      exact hknr (hpk ▸ hp)
    rw [h1, h2, h3, h4]
  rw [List.nil_append, hfilter]

/-- Membership in the `cohort_monthly_spend` frame, through its construction
from the grouped cumulative sum. -/
theorem mem_cohort_monthly_spend (es : List Enriched) (r : AggRow) :
    r ∈ cohort_monthly_spend es ↔
      ∃ kc ∈ cumsumGo (keyTotal es) [] (sortedKeys es), r = mkAggRow es kc := by
  unfold cohort_monthly_spend
  rw [List.mem_map]
  constructor
  · rintro ⟨kc, hkc, he⟩
    exact ⟨kc, hkc, he.symm⟩
  · rintro ⟨kc, hkc, he⟩
    exact ⟨kc, hkc, he.symm⟩

/-- Filtering a duplicate-free list by equality with a fixed element yields
that element when present and nothing otherwise. -/
theorem filter_eq_singleton_of_nodup {α : Type} [DecidableEq α] :
    ∀ (l : List α) (a : α), l.Nodup →
      l.filter (fun x => decide (x = a)) = if a ∈ l then [a] else [] := by
  intro l a
  induction l with
  | nil => intro _; simp
  | cons x xs ih =>
    intro hnd
    rw [List.nodup_cons] at hnd
    by_cases hx : x = a
    · subst hx
      rw [List.filter_cons_of_pos (by simp)]
      have hnil : xs.filter (fun y => decide (y = x)) = [] := by
        rw [List.filter_eq_nil_iff]
        intro q hq hqa
        rw [decide_eq_true_iff] at hqa
        exact hnd.1 (hqa ▸ hq)
      rw [hnil, if_pos (List.mem_cons_self x xs)]
    · rw [List.filter_cons_of_neg (by simp [hx]), ih hnd.2]
      by_cases hm : a ∈ xs
      · rw [if_pos hm, if_pos (List.mem_cons_of_mem x hm)]
      · have hnc : a ∉ x :: xs := by
          rw [List.mem_cons]
          rintro (h | h)
          · exact hx h.symm
          · exact hm h
        rw [if_neg hm, if_neg hnc]

/-- The rows of `cohort_monthly_spend` matching one (cohort month, offset)
pair of the pivot, projected to their group totals, are the group totals of
the key list filtered at the single corresponding key. -/
theorem agg_matches_map_total (es : List Enriched) (cm off : Int) :
    (pivotMatches (cohort_monthly_spend es) (fun r => r.cm) (fun r => r.offset)
        cm off).map (fun r => r.total) =
      ((sortedKeys es).filter (fun p => decide (p = (cm, cm + off)))).map
        (keyTotal es) := by
  unfold pivotMatches cohort_monthly_spend
  rw [List.filter_map, List.map_map]
  have hpred : ((fun r : AggRow => decide (r.cm = cm ∧ r.offset = off)) ∘ mkAggRow es) =
      (fun p : Int × Int => decide (p = (cm, cm + off))) ∘ Prod.fst := by
    funext kc
    show decide ((mkAggRow es kc).cm = cm ∧ (mkAggRow es kc).offset = off)
      = decide (kc.1 = (cm, cm + off))
    rw [decide_eq_decide]
    unfold mkAggRow
    dsimp only
    rw [Prod.ext_iff]
    constructor
    · intro h
      exact ⟨h.1, by omega⟩
    · intro h
      exact ⟨h.1, by omega⟩
  rw [hpred]
  have hcomp : ((fun r : AggRow => r.total) ∘ mkAggRow es) =
      keyTotal es ∘ Prod.fst := rfl
  rw [hcomp]
  rw [← List.map_map (keyTotal es) Prod.fst, ← List.filter_map Prod.fst,
    cumsumGo_map_fst]

/-- The number of rows matching one (cohort month, offset) pair equals the
number of keys equal to the corresponding key. -/
theorem agg_matches_length (es : List Enriched) (cm off : Int) :
    (pivotMatches (cohort_monthly_spend es) (fun r => r.cm) (fun r => r.offset)
        cm off).length =
      ((sortedKeys es).filter (fun p => decide (p = (cm, cm + off)))).length := by
  rw [← List.length_map (pivotMatches (cohort_monthly_spend es) (fun r => r.cm)
      (fun r => r.offset) cm off) (fun r => r.total),
    agg_matches_map_total, List.length_map]

/-- Closed form of one cell of the revenue matrix: the group total of the
corresponding key when the cohort has a row at that offset, `0` otherwise. -/
theorem revenue_cell_closed (es : List Enriched) (cm off : Int) :
    pivotCell (cohort_monthly_spend es) (fun r => r.cm) (fun r => r.offset)
        (fun r => r.total) cm off =
      if (cm, cm + off) ∈ sortedKeys es then keyTotal es (cm, cm + off) else 0 := by
  unfold pivotCell
  rw [agg_matches_length, agg_matches_map_total,
    filter_eq_singleton_of_nodup (sortedKeys es) (cm, cm + off) (sortedKeys_nodup es)]
  by_cases hm : (cm, cm + off) ∈ sortedKeys es
  · rw [if_pos hm, if_pos hm]
    simp
  · rw [if_neg hm, if_neg hm]
    simp

/-- The key list of the `repeat_purchasers` frame has no duplicates. -/
theorem repeatKeys_nodup (es : List Enriched) : (repeatKeys es).Nodup := by
  unfold repeatKeys
  exact ((List.perm_insertionSort pairLe _).nodup_iff).mpr (List.nodup_dedup _)

/-- The number of `repeat_purchasers` rows matching one (cohort month,
offset) pair of the repeat-rate pivot equals the number of repeat keys equal
to the corresponding key. -/
theorem rep_matches_length (es : List Enriched) (cm off : Int) :
    (pivotMatches (repeat_purchasers es) (fun r => r.cm) (fun r => r.offset)
        cm off).length =
      ((repeatKeys es).filter (fun p => decide (p = (cm, cm + off)))).length := by
  unfold pivotMatches repeat_purchasers
  rw [List.filter_map, List.length_map]
  apply congrArg List.length
  apply List.filter_congr
  intro k _
  show decide ((mkRepRow es k).cm = cm ∧ (mkRepRow es k).offset = off)
    = decide (k = (cm, cm + off))
  rw [decide_eq_decide]
  unfold mkRepRow
  dsimp only
  rw [Prod.ext_iff]
  constructor
  · intro h2
    exact ⟨h2.1, by omega⟩
  · intro h2
    exact ⟨h2.1, by omega⟩

/-- C10: within a fixed cohort month the map from purchase month to offset is
injective, for both pivoted frames — two `cohort_monthly_spend` rows with the
same cohort month and the same offset are the same row, two
`repeat_purchasers` rows likewise (in particular equal purchase months), and
every (cohort month, offset) cell of the LTV/revenue pivots and of the
repeat-rate pivot matches at most one row of its frame, so the pivot's
implicit averaging never combines two different values. -/
theorem c10_theorem (es : List Enriched) (cm off : Int) :
    (∀ r1 r2 : AggRow, r1 ∈ cohort_monthly_spend es → r2 ∈ cohort_monthly_spend es →
      r1.cm = cm → r2.cm = cm → r1.offset = off → r2.offset = off →
      r1 = r2 ∧ r1.pm = r2.pm) ∧
    (∀ s1 s2 : RepRow, s1 ∈ repeat_purchasers es → s2 ∈ repeat_purchasers es →
      s1.cm = cm → s2.cm = cm → s1.offset = off → s2.offset = off →
      s1 = s2 ∧ s1.pm = s2.pm) ∧
    (pivotMatches (cohort_monthly_spend es) (fun r => r.cm) (fun r => r.offset)
      cm off).length ≤ 1 ∧
    (pivotMatches (repeat_purchasers es) (fun r => r.cm) (fun r => r.offset)
      cm off).length ≤ 1 := by
  refine ⟨?_, ?_, ?_, ?_⟩
  · intro r1 r2 h1 h2 hcm1 hcm2 hoff1 hoff2
    obtain ⟨kc1, hkc1, hr1⟩ := (mem_cohort_monthly_spend es r1).mp h1
    obtain ⟨kc2, hkc2, hr2⟩ := (mem_cohort_monthly_spend es r2).mp h2
    have hfst : ∀ kc : (Int × Int) × Rat, ∀ rr : AggRow, rr = mkAggRow es kc →
        rr.cm = cm → rr.offset = off → kc.1 = (cm, cm + off) := by
      intro kc rr hrr hc ho
      rw [hrr] at hc ho
      unfold mkAggRow at hc ho
      dsimp only at hc ho
      apply Prod.ext hc
      dsimp only
      omega
    have hk1 : kc1.1 = (cm, cm + off) := hfst kc1 r1 hr1 hcm1 hoff1
    have hk2 : kc2.1 = (cm, cm + off) := hfst kc2 r2 hr2 hcm2 hoff2
    have hnd : ((cumsumGo (keyTotal es) [] (sortedKeys es)).map Prod.fst).Nodup := by
      rw [cumsumGo_map_fst]
      exact sortedKeys_nodup es
    have hkc : kc1 = kc2 :=
      List.inj_on_of_nodup_map hnd hkc1 hkc2 (by rw [hk1, hk2])
    have hr : r1 = r2 := by rw [hr1, hr2, hkc]
    exact ⟨hr, by rw [hr]⟩
  · intro s1 s2 h1 h2 hcm1 hcm2 hoff1 hoff2
    unfold repeat_purchasers at h1 h2
    obtain ⟨k1, hk1, hs1⟩ := List.mem_map.mp h1
    obtain ⟨k2, hk2, hs2⟩ := List.mem_map.mp h2
    have hkey : ∀ k : Int × Int, ∀ s : RepRow, mkRepRow es k = s →
        s.cm = cm → s.offset = off → k = (cm, cm + off) := by
      intro k s hks hc ho
      rw [← hks] at hc ho
      unfold mkRepRow at hc ho
      dsimp only at hc ho
      apply Prod.ext hc
      dsimp only
      omega
    have hk1e : k1 = (cm, cm + off) := hkey k1 s1 hs1 hcm1 hoff1
    have hk2e : k2 = (cm, cm + off) := hkey k2 s2 hs2 hcm2 hoff2
    have hs : s1 = s2 := by rw [← hs1, ← hs2, hk1e, hk2e]
    exact ⟨hs, by rw [hs]⟩
  · rw [agg_matches_length,
      filter_eq_singleton_of_nodup (sortedKeys es) (cm, cm + off) (sortedKeys_nodup es)]
    by_cases hm : (cm, cm + off) ∈ sortedKeys es
    · rw [if_pos hm]
      exact Nat.le_refl 1
    · rw [if_neg hm]
      exact Nat.zero_le 1
  · rw [rep_matches_length,
      filter_eq_singleton_of_nodup (repeatKeys es) (cm, cm + off) (repeatKeys_nodup es)]
    by_cases hm : (cm, cm + off) ∈ repeatKeys es
    · rw [if_pos hm]
      exact Nat.le_refl 1
    · rw [if_neg hm]
      exact Nat.zero_le 1

/-- C10, witness: instantiated at the January cohort, offset 1, of the
scenario input, for both the aggregate frame and the repeat frame. -/
theorem c10_witness :
    ((⟨0, 1, 20, 45, 2, 45/2, 1⟩ : AggRow) = ⟨0, 1, 20, 45, 2, 45/2, 1⟩ ∧
      (⟨0, 1, 20, 45, 2, 45/2, 1⟩ : AggRow).pm = (⟨0, 1, 20, 45, 2, 45/2, 1⟩ : AggRow).pm) ∧
    ((⟨0, 1, 1, 2, 1/2, 1⟩ : RepRow) = ⟨0, 1, 1, 2, 1/2, 1⟩ ∧
      (⟨0, 1, 1, 2, 1/2, 1⟩ : RepRow).pm = (⟨0, 1, 1, 2, 1/2, 1⟩ : RepRow).pm) ∧
    (pivotMatches (cohort_monthly_spend scenarioEnriched) (fun r => r.cm)
      (fun r => r.offset) 0 1).length ≤ 1 ∧
    (pivotMatches (repeat_purchasers scenarioEnriched) (fun r => r.cm)
      (fun r => r.offset) 0 1).length ≤ 1 :=
  ⟨(c10_theorem scenarioEnriched 0 1).1 ⟨0, 1, 20, 45, 2, 45/2, 1⟩
      ⟨0, 1, 20, 45, 2, 45/2, 1⟩ (by decide) (by decide) (by decide) (by decide)
      (by decide) (by decide),
    (c10_theorem scenarioEnriched 0 1).2.1 ⟨0, 1, 1, 2, 1/2, 1⟩ ⟨0, 1, 1, 2, 1/2, 1⟩
      (by decide) (by decide) (by decide) (by decide) (by decide) (by decide),
    (c10_theorem scenarioEnriched 0 1).2.2.1,
    (c10_theorem scenarioEnriched 0 1).2.2.2⟩

/-- With non-negative sale amounts every group total is non-negative. -/
theorem keyTotal_nonneg (es : List Enriched) (hpos : ∀ e ∈ es, 0 ≤ e.amount)
    (k : Int × Int) : 0 ≤ keyTotal es k := by
  unfold keyTotal total_sales
  apply List.sum_nonneg
  intro x hx
  obtain ⟨e, he, hxe⟩ := List.mem_map.mp hx
  rw [← hxe]
  exact hpos e (List.mem_filter.mp he).1

/-- Sums of non-negative values over a filter grow when the filter widens. -/
theorem sum_filter_mono {α : Type} (T : α → Rat) :
    ∀ (l : List α) (p q : α → Bool), (∀ a ∈ l, p a = true → q a = true) →
      (∀ a ∈ l, 0 ≤ T a) →
      ((l.filter p).map T).sum ≤ ((l.filter q).map T).sum := by
  intro l
  induction l with
  | nil => intro p q _ _; exact le_refl 0
  | cons a l ih =>
    intro p q himp hnn
    have himp2 : ∀ x ∈ l, p x = true → q x = true :=
      fun x hx => himp x (List.mem_cons_of_mem a hx)
    have hnn2 : ∀ x ∈ l, 0 ≤ T x := fun x hx => hnn x (List.mem_cons_of_mem a hx)
    cases hp : p a with
    | false =>
      rw [List.filter_cons_of_neg (by simp [hp])]
      cases hq : q a with
      | false =>
        rw [List.filter_cons_of_neg (by simp [hq])]
        exact ih p q himp2 hnn2
      | true =>
        rw [List.filter_cons_of_pos (by rw [hq]), List.map_cons, List.sum_cons]
        calc ((l.filter p).map T).sum ≤ ((l.filter q).map T).sum := ih p q himp2 hnn2
          _ ≤ T a + ((l.filter q).map T).sum :=
            le_add_of_nonneg_left (hnn a (List.mem_cons_self a l))
    | true =>
      have hq : q a = true := himp a (List.mem_cons_self a l) hp
      rw [List.filter_cons_of_pos (by rw [hp]), List.filter_cons_of_pos (by rw [hq]),
        List.map_cons, List.map_cons, List.sum_cons, List.sum_cons]
      exact add_le_add_left (ih p q himp2 hnn2) (T a)

/-- C7: with non-negative sale amounts, within a fixed cohort month the
cumulative totals are monotonically non-decreasing in the purchase month:
the running sum is taken over the keys in ascending order, so each row's
cumulative value is the sum of its cohort's group totals up to its own
purchase month. -/
theorem c7_theorem (es : List Enriched) (hpos : ∀ e ∈ es, 0 ≤ e.amount)
    (r1 r2 : AggRow) (h1 : r1 ∈ cohort_monthly_spend es)
    (h2 : r2 ∈ cohort_monthly_spend es) (hcm : r1.cm = r2.cm)
    (hpm : r1.pm ≤ r2.pm) : r1.cumulative ≤ r2.cumulative := by
  obtain ⟨kc1, hkc1, hr1⟩ := (mem_cohort_monthly_spend es r1).mp h1
  obtain ⟨kc2, hkc2, hr2⟩ := (mem_cohort_monthly_spend es r2).mp h2
  have hc1 : r1.cumulative = kc1.2 := by rw [hr1]; rfl
  have hc2 : r2.cumulative = kc2.2 := by rw [hr2]; rfl
  have hm1 : r1.cm = kc1.1.1 := by rw [hr1]; rfl
  have hm2 : r2.cm = kc2.1.1 := by rw [hr2]; rfl
  have hp1 : r1.pm = kc1.1.2 := by rw [hr1]; rfl
  have hp2 : r2.pm = kc2.1.2 := by rw [hr2]; rfl
  rw [hc1, hc2,
    cumsum_closed (sortedKeys es) (sortedKeys_sorted es) (sortedKeys_nodup es)
      (keyTotal es) kc1 hkc1,
    cumsum_closed (sortedKeys es) (sortedKeys_sorted es) (sortedKeys_nodup es)
      (keyTotal es) kc2 hkc2]
  apply sum_filter_mono
  · intro a _ hpa
    rw [decide_eq_true_iff] at hpa
    rw [decide_eq_true_iff]
    have heq : kc1.1.1 = kc2.1.1 := by rw [← hm1, ← hm2, hcm]
    have hle : kc1.1.2 ≤ kc2.1.2 := by rw [← hp1, ← hp2]; exact hpm
    omega
  · intro a _
    exact keyTotal_nonneg es hpos a

/-- C7, witness: on the scenario input the January cohort's cumulative
totals at offsets 0 and 1 are ordered. -/
theorem c7_witness :
    (⟨0, 0, 25, 25, 2, 25/2, 0⟩ : AggRow).cumulative ≤
      (⟨0, 1, 20, 45, 2, 45/2, 1⟩ : AggRow).cumulative :=
  c7_theorem scenarioEnriched (by decide) ⟨0, 0, 25, 25, 2, 25/2, 0⟩
    ⟨0, 1, 20, 45, 2, 45/2, 1⟩ (by decide) (by decide) (by decide) (by decide)

/-- Pointwise sums of mapped lists split. -/
theorem sum_map_add {α : Type} (f g : α → Rat) :
    ∀ l : List α, (l.map (fun a => f a + g a)).sum = (l.map f).sum + (l.map g).sum := by
  intro l
  induction l with
  | nil => simp
  | cons a l ih =>
    rw [List.map_cons, List.map_cons, List.map_cons, List.sum_cons, List.sum_cons,
      List.sum_cons, ih]
    ring

/-- A single-support indicator sums to zero when the support is absent. -/
theorem sum_ite_not_mem (x : Int) (c : Rat) :
    ∀ l : List Int, x ∉ l → (l.map (fun m => if x = m then c else 0)).sum = 0 := by
  intro l
  induction l with
  | nil => intro _; rfl
  | cons a l ih =>
    intro h
    rw [List.map_cons, List.sum_cons,
      if_neg (fun hc => h (by rw [hc]; exact List.mem_cons_self a l)),
      ih (fun hc => h (List.mem_cons_of_mem a hc)), zero_add]

/-- A single-support indicator over a duplicate-free list sums to its value. -/
theorem sum_ite_mem_nodup (x : Int) (c : Rat) :
    ∀ l : List Int, l.Nodup → x ∈ l →
      (l.map (fun m => if x = m then c else 0)).sum = c := by
  intro l
  induction l with
  | nil => intro _ hx; cases hx
  | cons a l ih =>
    intro hnd hx
    rw [List.nodup_cons] at hnd
    rw [List.map_cons, List.sum_cons]
    rcases List.mem_cons.mp hx with hx | hx
    · rw [if_pos hx, sum_ite_not_mem x c l (hx ▸ hnd.1), add_zero]
    · have hne : x ≠ a := fun hc => hnd.1 (hc ▸ hx)
      rw [if_neg hne, ih hnd.2 hx, zero_add]

/-- Summing grouped sums over the distinct fibre keys recovers the total:
the list analogue of summing a groupby back together. -/
theorem sum_fiberwise {α : Type} (g : α → Rat) (f : α → Int) :
    ∀ (L : List α) (M : List Int), M.Nodup → (∀ a ∈ L, f a ∈ M) →
      (M.map (fun m => ((L.filter (fun a => decide (f a = m))).map g).sum)).sum
        = (L.map g).sum := by
  intro L
  induction L with
  | nil =>
    intro M _ _
    have hz : ∀ m ∈ M,
        ((([] : List α).filter (fun a => decide (f a = m))).map g).sum
          = (fun _ : Int => (0 : Rat)) m := fun m _ => rfl
    rw [List.map_congr_left hz]
    simp
  | cons a L ih =>
    intro M hnd hcov
    have hfa : f a ∈ M := hcov a (List.mem_cons_self a L)
    have hstep : ∀ m ∈ M,
        (((a :: L).filter (fun x => decide (f x = m))).map g).sum
          = (fun m2 => (if f a = m2 then g a else 0) +
              ((L.filter (fun x => decide (f x = m2))).map g).sum) m := by
      intro m _
      dsimp only
      by_cases hfm : f a = m
      · rw [List.filter_cons_of_pos (by simp [hfm]), List.map_cons, List.sum_cons,
          if_pos hfm]
      · rw [List.filter_cons_of_neg (by simp [hfm]), if_neg hfm, zero_add]
    rw [List.map_congr_left hstep, sum_map_add, sum_ite_mem_nodup (f a) (g a) M hnd hfa,
      ih M hnd (fun x hx => hcov x (List.mem_cons_of_mem a hx)),
      List.map_cons, List.sum_cons]

/-- Reindexing a sum of zero-filled cells over the column keys by the
injection `off ↦ cm + off` onto the cohort's observed months. -/
theorem sum_map_ite_mem (cmv : Int) (T : Int → Rat) :
    ∀ (A B : List Int), A.Nodup → B.Nodup → (∀ b ∈ B, b - cmv ∈ A) →
      (A.map (fun a => if (cmv + a) ∈ B then T (cmv + a) else 0)).sum
        = (B.map T).sum := by
  intro A
  induction A with
  | nil =>
    intro B _ hndB hcov
    cases B with
    | nil => rfl
    | cons b bs => exact absurd (hcov b (List.mem_cons_self b bs)) (List.not_mem_nil _)
  | cons a A ih =>
    intro B hndA hndB hcov
    rw [List.nodup_cons] at hndA
    rw [List.map_cons, List.sum_cons]
    by_cases hm : (cmv + a) ∈ B
    · have hBsum : (B.map T).sum = T (cmv + a) + ((B.erase (cmv + a)).map T).sum := by
        rw [((List.perm_cons_erase hm).map T).sum_eq, List.map_cons, List.sum_cons]
      have hpt : ∀ x ∈ A,
          (fun y => if (cmv + y) ∈ B then T (cmv + y) else 0) x
            = (fun y => if (cmv + y) ∈ B.erase (cmv + a) then T (cmv + y) else 0) x := by
        intro x hx
        dsimp only
        have hxa : x ≠ a := fun hc => hndA.1 (hc ▸ hx)
        have hiff : (cmv + x) ∈ B.erase (cmv + a) ↔ (cmv + x) ∈ B := by
          rw [hndB.mem_erase_iff]
          constructor
          · intro h2
            exact h2.2
          · intro h2
            exact ⟨by omega, h2⟩
        by_cases h2 : (cmv + x) ∈ B
        · rw [if_pos h2, if_pos (hiff.mpr h2)]
        · rw [if_neg h2, if_neg (fun hc => h2 (hiff.mp hc))]
      have hcov2 : ∀ b ∈ B.erase (cmv + a), b - cmv ∈ A := by
        intro b hb
        have hbB := List.mem_of_mem_erase hb
        have hbne : b ≠ cmv + a := (hndB.mem_erase_iff.mp hb).1
        rcases List.mem_cons.mp (hcov b hbB) with h2 | h2
        · exact absurd (by omega : b = cmv + a) hbne
        · exact h2
      rw [if_pos hm, hBsum, List.map_congr_left hpt,
        ih (B.erase (cmv + a)) hndA.2 (hndB.erase _) hcov2]
    · have hcov2 : ∀ b ∈ B, b - cmv ∈ A := by
        intro b hb
        rcases List.mem_cons.mp (hcov b hb) with h2 | h2
        · exact absurd (show (cmv + a) ∈ B by rw [show cmv + a = b by omega]; exact hb) hm
        · exact h2
      rw [if_neg hm, zero_add, ih B hndA.2 hndB hcov2]

/-- The row and column keys of a pivot have no duplicates. -/
theorem pivotRowKeys_nodup {α : Type} (rows : List α) (f : α → Int) :
    (pivotRowKeys rows f).Nodup := by
  unfold pivotRowKeys
  exact ((List.perm_insertionSort _ _).nodup_iff).mpr (List.nodup_dedup _)

/-- A month belongs to a cohort's observed months exactly when the cohort has
an aggregation key at that month. -/
theorem mem_monthsOf (es : List Enriched) (cm m : Int) :
    m ∈ monthsOf es cm ↔ (cm, m) ∈ sortedKeys es := by
  unfold monthsOf
  rw [List.mem_map]
  constructor
  · rintro ⟨k, hk, hkm⟩
    have hf := List.mem_filter.mp hk
    have hc : k.1 = cm := by simpa using hf.2
    have hk2 : k = (cm, m) := Prod.ext hc hkm
    exact hk2 ▸ hf.1
  · intro h
    exact ⟨(cm, m), List.mem_filter.mpr ⟨h, by simp⟩, rfl⟩

/-- A cohort's observed months are pairwise distinct. -/
theorem monthsOf_nodup (es : List Enriched) (cm : Int) :
    (monthsOf es cm).Nodup := by
  unfold monthsOf
  apply List.Nodup.map_on
  · intro x hx y hy hxy
    have hx1 : x.1 = cm := by simpa using (List.mem_filter.mp hx).2
    have hy1 : y.1 = cm := by simpa using (List.mem_filter.mp hy).2
    exact Prod.ext (hx1.trans hy1.symm) hxy
  · exact (sortedKeys_nodup es).filter _

/-- An offset is a column key of the revenue/LTV pivot exactly when some
aggregation key realises it. -/
theorem mem_agg_colKeys (es : List Enriched) (off : Int) :
    off ∈ pivotRowKeys (cohort_monthly_spend es) (fun r => r.offset) ↔
      ∃ k ∈ sortedKeys es, k.2 - k.1 = off := by
  unfold pivotRowKeys
  rw [List.mem_insertionSort, List.mem_dedup, List.mem_map]
  constructor
  · rintro ⟨r, hr, hro⟩
    obtain ⟨kc, hkc, hrkc⟩ := (mem_cohort_monthly_spend es r).mp hr
    refine ⟨kc.1, ?_, ?_⟩
    · have hmm := List.mem_map_of_mem Prod.fst hkc
      rwa [cumsumGo_map_fst] at hmm
    · rw [hrkc] at hro
      exact hro
  · rintro ⟨k, hk, hko⟩
    have hk2 : k ∈ (cumsumGo (keyTotal es) [] (sortedKeys es)).map Prod.fst := by
      rw [cumsumGo_map_fst]
      exact hk
    obtain ⟨kc, hkc, hkceq⟩ := List.mem_map.mp hk2
    refine ⟨mkAggRow es kc, (mem_cohort_monthly_spend es _).mpr ⟨kc, hkc, rfl⟩, ?_⟩
    show kc.1.2 - kc.1.1 = off
    rw [hkceq]
    exact hko

/-- Elements of a list zipped with its own image are pairs of an element and
its image. -/
theorem mem_zip_map_self {α β : Type} (f : α → β) :
    ∀ (l : List α) (x : α × β), x ∈ l.zip (l.map f) → x.2 = f x.1 ∧ x.1 ∈ l := by
  intro l
  induction l with
  | nil => intro x hx; cases hx
  | cons a l ih =>
    intro x hx
    rw [List.map_cons, List.zip_cons_cons] at hx
    rcases List.mem_cons.mp hx with hx | hx
    · rw [hx]
      exact ⟨rfl, List.mem_cons_self a l⟩
    · obtain ⟨h1, h2⟩ := ih x hx
      exact ⟨h1, List.mem_cons_of_mem a h2⟩

/-- One (cohort month, purchase month) group total, computed by fibre inside
the cohort's transactions. -/
theorem total_sales_fiber (es : List Enriched) (cm m : Int) :
    (((es.filter (fun e => decide (cohortMonth e = cm))).filter
        (fun e => decide (purchaseMonth e = m))).map (fun e => e.amount)).sum
      = total_sales es cm m := by
  unfold total_sales
  rw [List.filter_filter]
  have hpred : ∀ e ∈ es,
      (decide (purchaseMonth e = m) && decide (cohortMonth e = cm))
        = decide (cohortMonth e = cm ∧ purchaseMonth e = m) := by
    intro e _
    simp [Bool.and_comm]
  rw [List.filter_congr hpred]

/-- Summing a cohort's group totals over its observed months gives the total
sale amount of the cohort's transactions. -/
theorem cohort_total_fiber (es : List Enriched) (cm : Int) :
    ((monthsOf es cm).map (fun m => total_sales es cm m)).sum
      = cohortTotalAmount es cm := by
  unfold cohortTotalAmount
  have hcov : ∀ a ∈ es.filter (fun e => decide (cohortMonth e = cm)),
      purchaseMonth a ∈ monthsOf es cm := by
    intro a ha
    have hf := List.mem_filter.mp ha
    have hc : cohortMonth a = cm := by simpa using hf.2
    rw [mem_monthsOf, ← hc]
    exact (mem_sortedKeys es _).mpr ⟨a, hf.1, rfl⟩
  rw [← sum_fiberwise (fun e => e.amount) purchaseMonth
      (es.filter (fun e => decide (cohortMonth e = cm))) (monthsOf es cm)
      (monthsOf_nodup es cm) hcov]
  apply congrArg List.sum
  apply List.map_congr_left
  intro m _
  exact (total_sales_fiber es cm m).symm

/-- C6: conservation of revenue — the sum over one cohort's row of the
revenue matrix equals the total sale amount of that cohort's transactions:
the zero-filled cells contribute nothing, each populated cell is one group
total, and the group totals partition the cohort's transactions by purchase
month. -/
theorem c6_theorem (es : List Enriched) (cm : Int) (row : List Rat)
    (h : (cm, row) ∈ (revenue_matrix es).rowKeys.zip (revenue_matrix es).cells) :
    row.sum = cohortTotalAmount es cm := by
  unfold revenue_matrix pivot at h
  dsimp only at h
  obtain ⟨hrow, _⟩ := mem_zip_map_self _ _ _ h
  dsimp only at hrow
  rw [hrow]
  have hclosed : ∀ off ∈ pivotRowKeys (cohort_monthly_spend es) (fun r => r.offset),
      pivotCell (cohort_monthly_spend es) (fun r => r.cm) (fun r => r.offset)
          (fun r => r.total) cm off
        = (fun off2 => if (cm + off2) ∈ monthsOf es cm
            then total_sales es cm (cm + off2) else 0) off := by
    intro off _
    dsimp only
    rw [revenue_cell_closed]
    apply if_congr
    · exact (mem_monthsOf es cm (cm + off)).symm
    · rfl
    · rfl
  rw [List.map_congr_left hclosed,
    sum_map_ite_mem cm (fun m => total_sales es cm m) _ (monthsOf es cm)
      (pivotRowKeys_nodup _ _) (monthsOf_nodup es cm) ?hcov]
  · exact cohort_total_fiber es cm
  case hcov =>
    intro b hb
    rw [mem_agg_colKeys]
    exact ⟨(cm, b), (mem_monthsOf es cm b).mp hb, by omega⟩

/-- C6, witness: the January cohort's revenue row of the scenario input sums
to that cohort's total spend. -/
theorem c6_witness :
    ([25, 20] : List Rat).sum = cohortTotalAmount scenarioEnriched 0 :=
  c6_theorem scenarioEnriched 0 [25, 20] (by decide)

/-- A key occurs among the repeat-purchase aggregation keys exactly when some
repeat-purchase transaction aggregates under it. -/
theorem mem_repeatKeys (es : List Enriched) (k : Int × Int) :
    k ∈ repeatKeys es ↔ ∃ e ∈ es, isRepeat e = true ∧ aggKey e = k := by
  unfold repeatKeys
  rw [List.mem_insertionSort, List.mem_dedup, List.mem_map]
  constructor
  · rintro ⟨e, he, hek⟩
    have hf := List.mem_filter.mp he
    exact ⟨e, hf.1, hf.2, hek⟩
  · rintro ⟨e, he, hrep, hek⟩
    exact ⟨e, List.mem_filter.mpr ⟨he, hrep⟩, hek⟩

/-- C3, amended: the repeat-purchase-rate matrix does not span every cohort
and offset of the data — it has one row exactly for each cohort month with at
least one repeat purchaser, one column exactly for each offset at which some
cohort has a repeat purchaser, and any cell of that smaller grid matching no
repeat-purchase aggregate is 0. -/
theorem c3_theorem (es : List Enriched) (cm off : Int) :
    (cm ∈ (repeat_rate_matrix es).rowKeys ↔
      ∃ e ∈ es, isRepeat e = true ∧ cohortMonth e = cm) ∧
    (off ∈ (repeat_rate_matrix es).colKeys ↔
      ∃ e ∈ es, isRepeat e = true ∧ purchaseMonth e - cohortMonth e = off) ∧
    ((∀ r ∈ repeat_purchasers es, ¬(r.cm = cm ∧ r.offset = off)) →
      pivotCell (repeat_purchasers es) (fun r => r.cm) (fun r => r.offset)
        (fun r => r.rate) cm off = 0) := by
  refine ⟨?_, ?_, ?_⟩
  · show cm ∈ pivotRowKeys (repeat_purchasers es) (fun r => r.cm) ↔ _
    unfold pivotRowKeys
    rw [List.mem_insertionSort, List.mem_dedup, List.mem_map]
    constructor
    · rintro ⟨r, hr, hrc⟩
      obtain ⟨k, hk, hkr⟩ := List.mem_map.mp hr
      obtain ⟨e, he, hrep, hek⟩ := (mem_repeatKeys es k).mp hk
      refine ⟨e, he, hrep, ?_⟩
      show (aggKey e).1 = cm
      rw [hek, ← hrc, ← hkr]
      rfl
    · rintro ⟨e, he, hrep, hec⟩
      refine ⟨mkRepRow es (aggKey e),
        List.mem_map_of_mem (mkRepRow es)
          ((mem_repeatKeys es (aggKey e)).mpr ⟨e, he, hrep, rfl⟩), hec⟩
  · show off ∈ pivotRowKeys (repeat_purchasers es) (fun r => r.offset) ↔ _
    unfold pivotRowKeys
    rw [List.mem_insertionSort, List.mem_dedup, List.mem_map]
    constructor
    · rintro ⟨r, hr, hrc⟩
      obtain ⟨k, hk, hkr⟩ := List.mem_map.mp hr
      obtain ⟨e, he, hrep, hek⟩ := (mem_repeatKeys es k).mp hk
      refine ⟨e, he, hrep, ?_⟩
      show (aggKey e).2 - (aggKey e).1 = off
      rw [hek, ← hrc, ← hkr]
      rfl
    · rintro ⟨e, he, hrep, hec⟩
      refine ⟨mkRepRow es (aggKey e),
        List.mem_map_of_mem (mkRepRow es)
          ((mem_repeatKeys es (aggKey e)).mpr ⟨e, he, hrep, rfl⟩), hec⟩
  · intro h
    have hnil : pivotMatches (repeat_purchasers es) (fun r => r.cm)
        (fun r => r.offset) cm off = [] := by
      unfold pivotMatches
      rw [List.filter_eq_nil_iff]
      intro r hr hc
      rw [decide_eq_true_iff] at hc
      exact h r hr hc
    unfold pivotCell
    rw [hnil]
    rfl

/-- C3, witness: the zero-fill clause applied at a cell outside the
scenario's repeat data (cohort month 5, offset 7). -/
theorem c3_witness :
    pivotCell (repeat_purchasers scenarioEnriched) (fun r => r.cm)
      (fun r => r.offset) (fun r => r.rate) 5 7 = 0 :=
  (c3_theorem scenarioEnriched 5 7).2.2 (by decide)

/-- C9: the pipeline is a pure function of its input table — two runs on
identical inputs produce identical output tables (the embedding fixes the
deterministic key ordering of every groupby and pivot) and identical write
sets. -/
theorem c9_theorem (t1 t2 : Table) (h : t1 = t2) :
    process_csv t1 = process_csv t2 ∧ writtenFiles t1 = writtenFiles t2 := by
  subst h
  exact ⟨rfl, rfl⟩

/-- C9, witness: determinism instantiated on the scenario input. -/
theorem c9_witness :
    process_csv scenarioTable = process_csv scenarioTable ∧
    writtenFiles scenarioTable = writtenFiles scenarioTable :=
  c9_theorem scenarioTable scenarioTable rfl

end MarOps
